import Mathlib

/-
  Verification development for the Trading_Algo repository
  (paper-trading bot).  Python modules are shallowly embedded:
  floats are modelled as rationals, fallible values as Option,
  stateful methods as explicit state-passing functions.
-/

namespace TradingBot

/-- Order side, from connectors/base.py (Side enum). -/
inductive Side where
  | long
  | short
  | flat
deriving DecidableEq, Repr

/-- Account trade mode, from connectors/base.py (AccountTradeMode enum). -/
inductive AccountTradeMode where
  | demo
  | real
  | contest
  | unknown
deriving DecidableEq, Repr

/-- Symbol metadata, from connectors/base.py (SymbolMeta); only the fields
read by the risk code are modelled, the rest are never consulted there. -/
structure SymbolMeta where
  point : Option ℚ
  tradeTickValue : Option ℚ
  tradeTickSize : Option ℚ
  volumeMin : Option ℚ
  volumeMax : Option ℚ
  volumeStep : Option ℚ
deriving DecidableEq, Repr

/-- Result of risk-based volume sizing, from risk/sizing.py (VolumeResult). -/
structure VolumeResult where
  ok : Bool
  volume : Option ℚ
  reason : String
deriving DecidableEq, Repr

/-- risk/sizing.py _round_down_to_step: floor(value / step) * step. -/
def roundDownToStep (value step : ℚ) : ℚ :=
  if step ≤ 0 then value else (⌊value / step⌋ : ℤ) * step

/-- risk/sizing.py compute_volume.  Python `float(x or 0.0)` on an optional
field is `Option.getD x 0` (None and 0.0 both give 0.0).  The expression
`float(symbol.volume_max or 0.0) if symbol.volume_max else None` yields
None when volume_max is None or 0. -/
def computeVolume (equity riskPerTrade stopPoints : ℚ) (symbol : SymbolMeta) : VolumeResult :=
  if equity ≤ 0 then ⟨false, none, "equity unavailable"⟩
  else if stopPoints ≤ 0 then ⟨false, none, "invalid stop distance"⟩
  else
    let point := symbol.point.getD 0
    let tickValue := symbol.tradeTickValue.getD 0
    let tickSize := symbol.tradeTickSize.getD 0
    if point ≤ 0 ∨ tickValue ≤ 0 ∨ tickSize ≤ 0 then
      ⟨false, none, "missing symbol tick metadata for sizing"⟩
    else
      let moneyPerPoint := tickValue * point / tickSize
      if moneyPerPoint ≤ 0 then ⟨false, none, "invalid tick metadata"⟩
      else
        let riskMoney := equity * riskPerTrade
        let vol0 := riskMoney / (stopPoints * moneyPerPoint)
        let volMin := symbol.volumeMin.getD 0
        -- Python: vol_max = float(volume_max or 0.0) if volume_max else None,
        -- then min is applied iff vol_max is truthy and > 0; this is exactly
        -- "volume_max.getD 0 is positive".
        let volMax := symbol.volumeMax.getD 0
        let volStep := symbol.volumeStep.getD 0
        let vol1 := if 0 < volMin then max vol0 volMin else vol0
        let vol2 := if 0 < volMax then min vol1 volMax else vol1
        let vol3 :=
          if 0 < volStep then
            let r := roundDownToStep vol2 volStep
            if 0 < volMin ∧ r < volMin then volMin else r
          else vol2
        if vol3 ≤ 0 then ⟨false, none, "computed volume <= 0"⟩
        else ⟨true, some vol3, "risk sized"⟩

/-- Symbol metadata used for the volume-sizing witness (spec scenario 5). -/
def demoMeta : SymbolMeta :=
  ⟨some (1/100000), some 1, some (1/100000), some (1/100), some 100, some (1/100)⟩

/-- Symbol metadata on which the volume claim fails as stated:
volume_min = 17/16 is neither a multiple of volume_step = 1/10
nor below volume_max = 1. -/
def cexMeta : SymbolMeta :=
  ⟨some (1/100000), some 1, some (1/100000), some (17/16), some 1, some (1/10)⟩

/-- Risk configuration, from core/config.py RiskConfig (fields used by the
risk-manager state transitions). -/
structure RiskCfg where
  maxDailyLossPct : ℚ
  maxDrawdownPct : ℚ
  cooloffEnabled : Bool
  cooloffLosses : Nat
  cooloffMinutes : Nat
deriving DecidableEq, Repr

/-- Default risk configuration values from core/config.py
(max_daily_loss_pct 0.02, max_drawdown_pct 0.06, cooloff enabled, 3 losses,
120 minutes). -/
def defaultRiskCfg : RiskCfg := ⟨2/100, 6/100, true, 3, 120⟩

/-- Account info fields read by RiskManager.update_equity_state. -/
structure AccountM where
  equity : Option ℚ
  balance : Option ℚ
deriving DecidableEq, Repr

/-- Mutable risk state, from risk/models.py RiskState.  Timestamps are
modelled as UTC seconds (Int). -/
structure RiskStateM where
  paused : Bool := false
  pauseReason : Option String := none
  cooloffUntil : Option Int := none
  lossStreak : Nat := 0
  dailyDate : Option String := none
  dailyStartEquity : Option ℚ := none
  peakEquity : Option ℚ := none
deriving DecidableEq, Repr

/-- Fresh risk state (risk/models.py RiskState defaults). -/
def initRiskState : RiskStateM := {}

/-- risk/limits.py drawdown_pct. -/
def drawdownPct (peakEquity equity : ℚ) : ℚ :=
  if peakEquity ≤ 0 then 0 else max 0 ((peakEquity - equity) / peakEquity)

/-- risk/limits.py daily_loss_pct. -/
def dailyLossPct (dailyStartEquity equity : ℚ) : ℚ :=
  if dailyStartEquity ≤ 0 then 0 else max 0 ((dailyStartEquity - equity) / dailyStartEquity)

/-- Python `x is not None and x >= threshold` over an optional percentage. -/
def optThresholdHit (threshold : ℚ) : Option ℚ → Bool
  | some v => decide (threshold ≤ v)
  | none => false

/-- Python `self.state.cooloff_until_utc and now < self.state.cooloff_until_utc`
(a datetime is always truthy when present). -/
def cooloffActive (nowUtc : Int) : Option Int → Bool
  | some c => decide (nowUtc < c)
  | none => false

/-- risk_manager.py update_equity_state, date-rollover phase: on a new local
date, record the daily start equity (only when a positive equity is
available), and reset loss streak and cooloff. -/
def applyDateRollover (equity : Option ℚ) (nowLocalDate : String) (st : RiskStateM) : RiskStateM :=
  if st.dailyDate ≠ some nowLocalDate then
    { st with
      dailyDate := some nowLocalDate
      dailyStartEquity :=
        match equity with
        | some e => if 0 < e then some e else st.dailyStartEquity
        | none => st.dailyStartEquity
      lossStreak := 0
      cooloffUntil := none }
  else st

/-- risk_manager.py update_equity_state, peak phase: raise peak_equity to the
current equity when that equity is positive and exceeds the stored peak. -/
def applyPeakUpdate (equity : Option ℚ) (st : RiskStateM) : RiskStateM :=
  match equity with
  | some e =>
    if 0 < e then
      match st.peakEquity with
      | none => { st with peakEquity := some e }
      | some p => if p < e then { st with peakEquity := some e } else st
    else st
  | none => st

/-- Python `drawdown_pct(...) if equity is not None and self.state.peak_equity
else None` (truthiness: peak must be present and nonzero). -/
def computeDD (equity : Option ℚ) (st : RiskStateM) : Option ℚ :=
  match equity, st.peakEquity with
  | some e, some p => if p ≠ 0 then some (drawdownPct p e) else none
  | _, _ => none

/-- Same for daily_loss_pct against daily_start_equity. -/
def computeDL (equity : Option ℚ) (st : RiskStateM) : Option ℚ :=
  match equity, st.dailyStartEquity with
  | some e, some s => if s ≠ 0 then some (dailyLossPct s e) else none
  | _, _ => none

/-- The dict returned by update_equity_state (persistence/UI payload). -/
structure EquityOut where
  equity : Option ℚ
  balance : Option ℚ
  dailyStartEquity : Option ℚ
  peakEquity : Option ℚ
  drawdownPct : Option ℚ
  dailyLossPct : Option ℚ
  paused : Bool
  pauseReason : Option String
  lossStreak : Nat
  cooloffUntil : Option Int
deriving DecidableEq, Repr

/-- risk_manager.py RiskManager.update_equity_state.  The three pause checks
run in sequence, the last firing check winning the recorded reason (the
numeric interpolation of the Python reason strings is elided). -/
def updateEquityState (cfg : RiskCfg) (nowUtc : Int) (account : Option AccountM)
    (nowLocalDate : String) (st : RiskStateM) : EquityOut × RiskStateM :=
  let equity : Option ℚ := account.bind AccountM.equity
  let balance : Option ℚ := account.bind AccountM.balance
  let st1 := applyDateRollover equity nowLocalDate st
  let st2 := applyPeakUpdate equity st1
  let dd := computeDD equity st2
  let dl := computeDL equity st2
  let hitDaily := optThresholdHit cfg.maxDailyLossPct dl
  let hitDD := optThresholdHit cfg.maxDrawdownPct dd
  let hitCool := cooloffActive nowUtc st2.cooloffUntil
  let paused := hitDaily || hitDD || hitCool
  let pauseReason : Option String :=
    if hitCool = true then some "cooloff until"
    else if hitDD = true then some "max drawdown breached"
    else if hitDaily = true then some "max daily loss breached"
    else none
  let st3 := { st2 with paused := paused, pauseReason := pauseReason }
  (⟨equity, balance, st3.dailyStartEquity, st3.peakEquity, dd, dl, paused, pauseReason,
    st3.lossStreak, st3.cooloffUntil⟩, st3)

/-- A sequence of update_equity_state calls (one per engine cycle), each with
its wall clock, account snapshot and local date. -/
def applyEquityUpdates (cfg : RiskCfg) :
    List (Int × Option AccountM × String) → RiskStateM → RiskStateM
  | [], st => st
  | u :: rest, st =>
    applyEquityUpdates cfg rest (updateEquityState cfg u.1 u.2.1 u.2.2 st).2

/-- Broker position, from connectors/base.py Position; only the fields read
by risk/limits.py count_positions are modelled. -/
structure PositionM where
  positionId : Int
  symbol : String
  magic : Option Int
deriving DecidableEq, Repr

/-- Position counts, from risk/limits.py PositionCounts; the per-symbol dict
is modelled as a total function defaulting to 0 (Python dict.get(sym, 0)). -/
structure PositionCounts where
  total : Nat
  perSymbol : String → Nat

/-- risk/limits.py count_positions skip condition: `magic is not None and
p.magic is not None and int(p.magic) != int(magic)`. -/
def posSkipped (magic : Option Int) (p : PositionM) : Bool :=
  match magic, p.magic with
  | some m, some k => decide (k ≠ m)
  | _, _ => false

/-- risk/limits.py count_positions. -/
def countPositions (positions : List PositionM) (magic : Option Int) : PositionCounts :=
  positions.foldl
    (fun acc p =>
      if posSkipped magic p then acc
      else ⟨acc.total + 1,
            fun s => if s = p.symbol then acc.perSymbol p.symbol + 1 else acc.perSymbol s⟩)
    ⟨0, fun _ => 0⟩

/-- A position is kept by the bot-magic filter iff its magic is absent or
matches the configured magic number. -/
def keepPos (m : Int) (p : PositionM) : Bool :=
  match p.magic with
  | some k => decide (k = m)
  | none => true

/-- Broker deal, from connectors/base.py Deal; only the fields read by
RiskManager.on_new_deals are modelled. -/
structure DealM where
  magic : Option Int
  entry : String
  profit : Option ℚ
deriving DecidableEq, Repr

/-- Python str.upper, modelled character-wise over the string's data
(String.toUpper does the same but does not kernel-reduce). -/
def upperStr (s : String) : String := String.mk (s.data.map Char.toUpper)

/-- risk_manager.py RiskManager.on_new_deals, body of the per-deal loop.
Python `float(d.profit or 0.0)` is `Option.getD d.profit 0`. -/
def onNewDealsStep (cfg : RiskCfg) (nowUtc : Int) (magicNumber : Int)
    (st : RiskStateM) (d : DealM) : RiskStateM :=
  if (match d.magic with | some k => decide (k ≠ magicNumber) | none => false) then st
  else if upperStr d.entry ≠ "OUT" then st
  else
    let profit := d.profit.getD 0
    let st1 :=
      if profit < 0 then { st with lossStreak := st.lossStreak + 1 }
      else { st with lossStreak := 0 }
    if cfg.cooloffEnabled = true ∧ cfg.cooloffLosses ≤ st1.lossStreak then
      { st1 with cooloffUntil := some (nowUtc + (cfg.cooloffMinutes : Int) * 60) }
    else st1

/-- risk_manager.py RiskManager.on_new_deals over a list of deals. -/
def onNewDeals (cfg : RiskCfg) (nowUtc : Int) (magicNumber : Int)
    (deals : List DealM) (st : RiskStateM) : RiskStateM :=
  deals.foldl (onNewDealsStep cfg nowUtc magicNumber) st

/-- Quote fields read by check_entry, from connectors/base.py Quote. -/
structure QuoteM where
  bid : ℚ
  ask : ℚ
deriving DecidableEq, Repr

/-- risk/sltp.py SLTP. -/
structure SLTP where
  sl : Option ℚ
  tp : Option ℚ
  stopPoints : Option ℚ
  takePoints : Option ℚ
deriving DecidableEq, Repr

/-- risk/sltp.py sltp_rr. -/
def sltpRr (side : Side) (entry point : ℚ) (stopPoints takePoints : Int) : SLTP :=
  if point ≤ 0 then ⟨none, none, none, none⟩
  else if side = Side.long then
    ⟨some (entry - (stopPoints : ℚ) * point), some (entry + (takePoints : ℚ) * point),
     some (stopPoints : ℚ), some (takePoints : ℚ)⟩
  else
    ⟨some (entry + (stopPoints : ℚ) * point), some (entry - (takePoints : ℚ) * point),
     some (stopPoints : ℚ), some (takePoints : ℚ)⟩

/-- risk/sltp.py sltp_atr. -/
def sltpAtr (side : Side) (entry atr slMult tpMult : ℚ) : SLTP :=
  if atr ≤ 0 then ⟨none, none, none, none⟩
  else if side = Side.long then
    ⟨some (entry - atr * slMult), some (entry + atr * tpMult), none, none⟩
  else
    ⟨some (entry + atr * slMult), some (entry - atr * tpMult), none, none⟩

/-- Feature bundle fields read by check_entry (features dict, key atr14). -/
structure FeaturesM where
  atr14 : Option ℚ
deriving DecidableEq, Repr

/-- Risk-manager configuration fields read by check_entry, from
core/config.py (risk.* plus execution.magic_number). -/
structure EntryRiskCfg where
  riskPerTrade : ℚ
  maxOpenPositionsTotal : Nat
  maxOpenPositionsPerSymbol : Nat
  sltpMode : String
  rrStopPoints : Int
  rrTakePoints : Int
  atrSlMult : ℚ
  atrTpMult : ℚ
  magicNumber : Int
deriving DecidableEq, Repr

/-- risk/models.py RiskDecision (the free-form details dict is elided; no
claim reads it). -/
structure RiskDecision where
  allowed : Bool
  reason : String
  side : Side
  volume : Option ℚ
  sl : Option ℚ
  tp : Option ℚ
deriving DecidableEq, Repr

/-- risk_manager.py RiskManager._compute_sltp. -/
def computeSLTP (cfg : EntryRiskCfg) (side : Side) (entry point : ℚ)
    (features : FeaturesM) : SLTP :=
  if cfg.sltpMode = "atr" then
    sltpAtr side entry (features.atr14.getD 0) cfg.atrSlMult cfg.atrTpMult
  else
    sltpRr side entry point cfg.rrStopPoints cfg.rrTakePoints

/-- risk_manager.py RiskManager._stop_points (the side argument is unused in
the Python body). -/
def stopPointsOf (entry sl point : ℚ) : ℚ :=
  if point ≤ 0 then 0 else |entry - sl| / point

/-- risk_manager.py RiskManager.check_entry.  Numeric interpolation in the
Python reason strings is elided. -/
def checkEntry (cfg : EntryRiskCfg) (st : RiskStateM) (symbol : String) (side : Side)
    (quote : QuoteM) (symbolMeta : SymbolMeta) (features : FeaturesM)
    (positions : List PositionM) (account : Option AccountM) : RiskDecision :=
  if side ≠ Side.long ∧ side ≠ Side.short then
    ⟨false, "side is not entry", side, none, none, none⟩
  else if st.paused = true then
    ⟨false, st.pauseReason.getD "risk paused", side, none, none, none⟩
  else
    let counts := countPositions positions (some cfg.magicNumber)
    if cfg.maxOpenPositionsTotal ≤ counts.total then
      ⟨false, "max open positions reached", side, none, none, none⟩
    else if cfg.maxOpenPositionsPerSymbol ≤ counts.perSymbol symbol then
      ⟨false, "max positions for symbol reached", side, none, none, none⟩
    else
      let point := symbolMeta.point.getD 0
      if point ≤ 0 then ⟨false, "symbol point missing", side, none, none, none⟩
      else
        let entry := if side = Side.long then quote.ask else quote.bid
        let sltp := computeSLTP cfg side entry point features
        match sltp.sl, sltp.tp with
        | some sl, some tp =>
          let stopPoints := stopPointsOf entry sl point
          let equity := match account with | some a => a.equity.getD 0 | none => 0
          let volRes := computeVolume equity cfg.riskPerTrade stopPoints symbolMeta
          -- Python: `if not vol_res.ok or not vol_res.volume` (0.0 is falsy)
          if volRes.ok = false ∨ volRes.volume.getD 0 = 0 then
            ⟨false, "sizing blocked: " ++ volRes.reason, side, none, none, none⟩
          else
            ⟨true, "ok", side, some (volRes.volume.getD 0), some sl, some tp⟩
        | _, _ => ⟨false, "failed to compute SL/TP", side, none, none, none⟩

/-- The five-field tuple hashed into the idempotency key
(execution/idempotency.py make_idempotency_key keyword arguments). -/
structure FiveTuple where
  symbol : String
  timeframe : String
  candleCloseTimeUtc : String
  strategy : String
  side : String
deriving DecidableEq, Repr

/-- The raw string joined with pipes, from make_idempotency_key. -/
def rawKeyString (t : FiveTuple) : String :=
  t.symbol ++ "|" ++ t.timeframe ++ "|" ++ t.candleCloseTimeUtc ++ "|"
    ++ t.strategy ++ "|" ++ t.side

/-- execution/idempotency.py make_idempotency_key = sha256_hex(raw); the
SHA-256 digest (core/utils.py sha256_hex) is abstracted as the function
parameter, every property proven holds for the actual digest function. -/
def makeIdempotencyKey (sha256hex : String → String) (t : FiveTuple) : String :=
  sha256hex (rawKeyString t)

/-- One attempt's behaviour of connector.place_order as seen by
call_with_retries: a retryable/disconnected error, any other exception, or
an OrderResult (success flag and retcode). -/
inductive AttemptOutcome where
  | retryableExc (msg : String)
  | fatalExc (msg : String)
  | result (success : Bool) (retcode : Int)
deriving DecidableEq, Repr

/-- Outcome of call_with_retries: a returned OrderResult or a raised
exception. -/
inductive RetryResult where
  | ok (success : Bool) (retcode : Int)
  | exc (msg : String)
deriving DecidableEq, Repr

/-- execution/retry.py call_with_retries, recursion over the remaining
attempts; attempt i behaves as outcomes i; retryable errors are retried
until attempts run out (the last is re-raised), other exceptions propagate
at once; backoff sleeping is elided.  Returns the outcome paired with the
number of place_order invocations made.  (Python with max_attempts = 0
raises an AssertionError; modelled as an exception with 0 invocations.) -/
def cwrGo (outcomes : Nat → AttemptOutcome) : Nat → Nat → RetryResult × Nat
  | _, 0 => (RetryResult.exc "no attempts", 0)
  | i, remaining + 1 =>
    match outcomes i with
    | AttemptOutcome.result success retcode => (RetryResult.ok success retcode, 1)
    | AttemptOutcome.fatalExc m => (RetryResult.exc m, 1)
    | AttemptOutcome.retryableExc m =>
      if remaining = 0 then (RetryResult.exc m, 1)
      else
        let rest := cwrGo outcomes (i + 1) remaining
        (rest.1, rest.2 + 1)

/-- execution/retry.py call_with_retries. -/
def callWithRetries (outcomes : Nat → AttemptOutcome) (maxAttempts : Nat) : RetryResult × Nat :=
  cwrGo outcomes 0 maxAttempts

/-- One row of the decisions table (fields relevant to idempotency). -/
structure DecisionRow where
  status : String
  idempotencyKey : String
deriving DecidableEq, Repr

/-- Executor-visible world state: the decisions store and how many times the
broker's place_order has been invoked. -/
structure ExecState where
  decisions : List DecisionRow
  placeOrderCalls : Nat
deriving DecidableEq, Repr

/-- persistence/repos.py DecisionRepo.try_insert: INSERT succeeds iff no row
already holds the idempotency key (the UNIQUE constraint). -/
def tryInsert (key status : String) (s : ExecState) : Bool × ExecState :=
  if s.decisions.any (fun r => decide (r.idempotencyKey = key)) then (false, s)
  else (true, { s with decisions := s.decisions ++ [⟨status, key⟩] })

/-- executor.py TradeExecutor._update_decision: UPDATE decisions SET status
WHERE idempotency_key matches. -/
def updateDecision (key status : String) (s : ExecState) : ExecState :=
  { s with
    decisions := s.decisions.map fun r =>
      if r.idempotencyKey = key then { r with status := status } else r }

/-- execution/models.py ExecutionReport (fields relevant here). -/
structure ExecReport where
  action : String
  success : Bool
  reason : String
deriving DecidableEq, Repr

/-- Executor configuration, from core/config.py ExecutionConfig (fields the
executor reads for the modelled behaviour). -/
structure ExecCfg where
  tradingEnabled : Bool
  maxAttempts : Nat
deriving DecidableEq, Repr

/-- Account info fields read by the executor gates. -/
structure AccountInfoM where
  tradeMode : AccountTradeMode
deriving DecidableEq, Repr

/-- Python f-string rendering of an AccountTradeMode member. -/
def tradeModeStr : AccountTradeMode → String
  | AccountTradeMode.demo => "DEMO"
  | AccountTradeMode.real => "REAL"
  | AccountTradeMode.contest => "CONTEST"
  | AccountTradeMode.unknown => "UNKNOWN"

/-- The paper-only gate passes iff account info is absent or reports DEMO or
CONTEST (executor.py: `if ai and ai.trade_mode not in {DEMO, CONTEST}`). -/
def paperGateAllows : Option AccountInfoM → Bool
  | some a =>
    decide (a.tradeMode = AccountTradeMode.demo)
      || decide (a.tradeMode = AccountTradeMode.contest)
  | none => true

/-- executor.py TradeExecutor.open_trade after the trading-enabled and
paper-only gates: try_insert with status skipped, abort on duplicate key,
otherwise dispatch through call_with_retries and update the decision row to
opened / error. -/
def openDispatch (cfg : ExecCfg) (outcomes : Nat → AttemptOutcome) (key : String)
    (s : ExecState) : ExecReport × ExecState :=
  let ins := tryInsert key "skipped" s
  if ins.1 = false then (⟨"open", false, "duplicate idempotency key"⟩, ins.2)
  else
    let res := callWithRetries outcomes cfg.maxAttempts
    let s2 : ExecState := { ins.2 with placeOrderCalls := ins.2.placeOrderCalls + res.2 }
    match res.1 with
    | RetryResult.exc m => (⟨"open", false, m⟩, updateDecision key "error" s2)
    | RetryResult.ok success retcode =>
      if success = false then
        (⟨"open", false, "retcode=" ++ toString retcode⟩, updateDecision key "error" s2)
      else
        (⟨"open", true, "opened"⟩, updateDecision key "opened" s2)

/-- executor.py TradeExecutor.open_trade (post-trade verification only logs
and never changes report or state, so it is elided). -/
def openTrade (cfg : ExecCfg) (ai : Option AccountInfoM)
    (outcomes : Nat → AttemptOutcome) (key : String) (s : ExecState) :
    ExecReport × ExecState :=
  if cfg.tradingEnabled = false then (⟨"open", false, "trading disabled"⟩, s)
  else
    match ai with
    | some a =>
      if a.tradeMode ≠ AccountTradeMode.demo ∧ a.tradeMode ≠ AccountTradeMode.contest then
        (⟨"open", false, "paper-only gate: trade_mode=" ++ tradeModeStr a.tradeMode⟩, s)
      else openDispatch cfg outcomes key s
    | none => openDispatch cfg outcomes key s

/-- executor.py TradeExecutor.close_trade after the gates (mirror of
openDispatch with close wording and terminal status closed). -/
def closeDispatch (cfg : ExecCfg) (outcomes : Nat → AttemptOutcome) (key : String)
    (s : ExecState) : ExecReport × ExecState :=
  let ins := tryInsert key "skipped" s
  if ins.1 = false then (⟨"close", false, "duplicate idempotency key"⟩, ins.2)
  else
    let res := callWithRetries outcomes cfg.maxAttempts
    let s2 : ExecState := { ins.2 with placeOrderCalls := ins.2.placeOrderCalls + res.2 }
    match res.1 with
    | RetryResult.exc m => (⟨"close", false, m⟩, updateDecision key "error" s2)
    | RetryResult.ok success retcode =>
      if success = false then
        (⟨"close", false, "retcode=" ++ toString retcode⟩, updateDecision key "error" s2)
      else
        (⟨"close", true, "closed"⟩, updateDecision key "closed" s2)

/-- executor.py TradeExecutor.close_trade. -/
def closeTrade (cfg : ExecCfg) (ai : Option AccountInfoM)
    (outcomes : Nat → AttemptOutcome) (key : String) (s : ExecState) :
    ExecReport × ExecState :=
  if cfg.tradingEnabled = false then (⟨"close", false, "trading disabled"⟩, s)
  else
    match ai with
    | some a =>
      if a.tradeMode ≠ AccountTradeMode.demo ∧ a.tradeMode ≠ AccountTradeMode.contest then
        (⟨"close", false, "paper-only gate: trade_mode=" ++ tradeModeStr a.tradeMode⟩, s)
      else closeDispatch cfg outcomes key s
    | none => closeDispatch cfg outcomes key s

/-- The decisions store already holds the idempotency key. -/
def hasKey (s : ExecState) (key : String) : Bool :=
  s.decisions.any fun r => decide (r.idempotencyKey = key)

/-- The rows of the store holding the idempotency key. -/
def keyRows (s : ExecState) (key : String) : List DecisionRow :=
  s.decisions.filter fun r => decide (r.idempotencyKey = key)

/-- A terminal decision status (opened, closed or error, as opposed to the
provisional skipped). -/
def isTerminalStatus (status : String) : Bool :=
  decide (status = "opened") || decide (status = "closed") || decide (status = "error")

/-- Executor configuration used in the executor witnesses: trading enabled,
3 retry attempts (config defaults). -/
def demoExecCfg : ExecCfg := ⟨true, 3⟩

/-- A demo-account info, passing the paper-only gate. -/
def demoAi : Option AccountInfoM := some ⟨AccountTradeMode.demo⟩

/-- A broker that succeeds on the first attempt. -/
def okOutcomes : Nat → AttemptOutcome := fun _ => AttemptOutcome.result true 10009

/-- core/timeframes.py timeframe_seconds (raises on unknown codes, hence
Option). -/
def timeframeSeconds : String → Option Int
  | "M1" => some 60
  | "M5" => some 300
  | "M15" => some 900
  | "M30" => some 1800
  | "H1" => some 3600
  | "H4" => some 14400
  | "D1" => some 86400
  | _ => none

/-- engine/scheduler.py CandleCloseScheduler.poll for one tick, over the
timeframe length in seconds.  The connector's candle frame is modelled as
the optional list of the bars' open times (UTC seconds, the only column
poll reads); poll reads the second-to-last row (iloc[-2]).  Returns the
emitted close time (if any) and the updated last_candle_close_time_utc. -/
def pollStep (tfSecs : Int) (bars : Option (List Int)) (last : Option Int) :
    Option Int × Option Int :=
  match bars with
  | none => (none, last)
  | some l =>
    if l.length < 3 then (none, last)
    else
      let openTime := l.getD (l.length - 2) 0
      let closeTime := openTime + tfSecs
      match last with
      | none => (some closeTime, some closeTime)
      | some lastv =>
        if lastv < closeTime then (some closeTime, some closeTime)
        else (none, some lastv)

/-- A sequence of poll calls: the list of emitted close times (in emission
order) and the final scheduler state. -/
def pollSeq (tfSecs : Int) : List (Option (List Int)) → Option Int → List Int × Option Int
  | [], last => ([], last)
  | b :: bs, last =>
    let step := pollStep tfSecs b last
    let rest := pollSeq tfSecs bs step.2
    (match step.1 with
     | some c => c :: rest.1
     | none => rest.1, rest.2)

/-- A numpy float64 cell as robust_minmax sees it: NaN, an infinity, or a
finite value. -/
inductive NV where
  | nan
  | pinf
  | ninf
  | fin (q : ℚ)
deriving DecidableEq, Repr

/-- IEEE subtraction of a finite rational (the min) from a cell. -/
def NV.sub : NV → ℚ → NV
  | NV.nan, _ => NV.nan
  | NV.pinf, _ => NV.pinf
  | NV.ninf, _ => NV.ninf
  | NV.fin q, m => NV.fin (q - m)

/-- IEEE division of a cell by a positive finite rational; robust_minmax only
divides by mx - mn under a guard making it positive. -/
def NV.divPos : NV → ℚ → NV
  | NV.nan, _ => NV.nan
  | NV.pinf, _ => NV.pinf
  | NV.ninf, _ => NV.ninf
  | NV.fin q, d => NV.fin (q / d)

/-- np.clip(x, lo, hi) = minimum(maximum(x, lo), hi); NaN propagates and
infinities clip to the finite bounds. -/
def NV.clip : NV → ℚ → ℚ → NV
  | NV.nan, _, _ => NV.nan
  | NV.pinf, _, hi => NV.fin hi
  | NV.ninf, lo, hi => NV.fin (min lo hi)
  | NV.fin q, lo, hi => NV.fin (min (max q lo) hi)

/-- The finite values of an array (numpy v[np.isfinite(v)]). -/
def finiteVals : List NV → List ℚ
  | [] => []
  | NV.fin q :: rest => q :: finiteVals rest
  | _ :: rest => finiteVals rest

/-- Minimum of a value list (np.min / np.nanmin on the finite values). -/
def listMin : List ℚ → ℚ
  | [] => 0
  | x :: xs => xs.foldl min x

/-- Maximum of a value list (np.max / np.nanmax on the finite values). -/
def listMax : List ℚ → ℚ
  | [] => 0
  | x :: xs => xs.foldl max x

/-- Ordered insertion, for sorting the finite sample before quantiles. -/
def insertQ (x : ℚ) : List ℚ → List ℚ
  | [] => [x]
  | y :: ys => if x ≤ y then x :: y :: ys else y :: insertQ x ys

/-- Insertion sort (np.quantile sorts its input). -/
def sortQ : List ℚ → List ℚ
  | [] => []
  | x :: xs => insertQ x (sortQ xs)

/-- List indexing by a (nonnegative) integer position with a default,
mirroring numpy's s[i]. -/
def nthOrZ (l : List ℚ) (i : ℤ) (d : ℚ) : ℚ :=
  match l with
  | [] => d
  | x :: xs => if i = 0 then x else if i < 0 then d else nthOrZ xs (i - 1) d

/-- numpy's default linear-interpolation quantile over a sorted nonempty
sample: position h = q·(n−1), result s[i] + (h−i)·(s[i+1]−s[i]) with
i = ⌊h⌋; np.median is the q = 1/2 case. -/
def npQuantile (s : List ℚ) (q : ℚ) : ℚ :=
  let h : ℚ := q * ((s.length : ℚ) - 1)
  let i : ℤ := ⌊h⌋
  let γ : ℚ := h - (i : ℚ)
  let lo := nthOrZ s i 0
  let hi := nthOrZ s (i + 1) lo
  lo + γ * (hi - lo)

/-- The 1e-12 degeneracy tolerance of robust_minmax. -/
def EPS : ℚ := 1 / 10 ^ 12

/-- robust_minmax local iqr = q3 − q1 over the finite sample. -/
def rmIqr (l : List NV) : ℚ :=
  npQuantile (sortQ (finiteVals l)) (3/4) - npQuantile (sortQ (finiteVals l)) (1/4)

/-- robust_minmax local lo = median − 3·iqr. -/
def rmLo (l : List NV) : ℚ := npQuantile (sortQ (finiteVals l)) (1/2) - 3 * rmIqr l

/-- robust_minmax local hi = median + 3·iqr. -/
def rmHi (l : List NV) : ℚ := npQuantile (sortQ (finiteVals l)) (1/2) + 3 * rmIqr l

/-- robust_minmax local clipped = np.clip(v, lo, hi). -/
def rmClipped (l : List NV) : List NV := l.map fun v => v.clip (rmLo l) (rmHi l)

/-- ranking/normalizer.py robust_minmax; the Python locals med, q1, q3, iqr,
lo, hi, clipped, mn, mx are the named helper definitions above. -/
def robustMinmax (l : List NV) : List NV :=
  if (finiteVals l).length = 0 then l.map fun _ => NV.nan
  else if rmIqr l ≤ EPS then
    if |listMax (finiteVals l) - listMin (finiteVals l)| ≤ EPS then
      l.map fun _ => NV.fin (1/2)
    else
      l.map fun v =>
        (v.sub (listMin (finiteVals l))).divPos
          (listMax (finiteVals l) - listMin (finiteVals l))
  else
    if |listMax (finiteVals (rmClipped l)) - listMin (finiteVals (rmClipped l))| ≤ EPS then
      l.map fun _ => NV.fin (1/2)
    else
      (rmClipped l).map fun v =>
        (v.sub (listMin (finiteVals (rmClipped l)))).divPos
          (listMax (finiteVals (rmClipped l)) - listMin (finiteVals (rmClipped l)))

/-- The per-position relation of the robust_minmax claim: each output cell
is a finite value in the unit interval, or NaN at a NaN input. -/
def UnitOrNanAt (input output : NV) : Prop :=
  match output with
  | NV.fin q => 0 ≤ q ∧ q ≤ 1
  | NV.nan => input = NV.nan
  | _ => False

/-- ranking/correlation.py CorrelationDecision; the excluded dict is an
association list symbol → reason. -/
structure CorrelationDecision where
  selected : List String
  excluded : List (String × String)
deriving DecidableEq, Repr

/-- Two-digit zero padding for the fraction part of fmt2. -/
def pad2 (n : Nat) : String := if n < 10 then "0" ++ toString n else toString n

/-- Python "{:.2f}" fixed-point formatting of a rational (rounding to the
nearest hundredth; Python rounds the underlying binary double half-to-even,
which agrees on every value arising here). -/
def fmt2 (q : ℚ) : String :=
  let sign := if q < 0 then "-" else ""
  let c : ℤ := round (|q| * 100)
  sign ++ toString (c / 100) ++ "." ++ pad2 (c % 100).toNat

/-- ranking/correlation.py greedy_correlation_filter, main loop: admit each
symbol in score order unless some already-selected symbol correlates beyond
max_abs_corr (the first offender is recorded in the exclusion reason). -/
def greedyLoop (corr : String → String → ℚ) (maxAbsCorr : ℚ) (topN : Nat) :
    List String → List String → List (String × String) →
    List String × List (String × String)
  | [], selected, excluded => (selected, excluded)
  | sym :: rest, selected, excluded =>
    if topN ≤ selected.length then (selected, excluded)
    else
      match selected.find? (fun s2 => decide (maxAbsCorr < |corr sym s2|)) with
      | some s2 =>
        greedyLoop corr maxAbsCorr topN rest selected
          (excluded ++ [(sym, "|corr(" ++ sym ++ "," ++ s2 ++ ")|=" ++ fmt2 |corr sym s2|
            ++ " > " ++ fmt2 maxAbsCorr)])
      | none => greedyLoop corr maxAbsCorr topN rest (selected ++ [sym]) excluded

/-- greedy_correlation_filter padding loop: if fewer than top_n survived,
fill with the remaining ranked symbols in order. -/
def padLoop (topN : Nat) : List String → List String → List String
  | [], selected => selected
  | sym :: rest, selected =>
    if topN ≤ selected.length then selected
    else if sym ∈ selected then padLoop topN rest selected
    else padLoop topN rest (selected ++ [sym])

/-- ranking/correlation.py greedy_correlation_filter.  The pandas returns
DataFrame is abstracted by its emptiness flag and its Pearson correlation
matrix corr (returns_df[ranked].corr().fillna(0)). -/
def greedyCorrelationFilter (rankedSymbols : List String) (returnsEmpty : Bool)
    (corr : String → String → ℚ) (maxAbsCorr : ℚ) (topN : Nat) : CorrelationDecision :=
  if returnsEmpty = true ∨ rankedSymbols.length ≤ 1 then
    ⟨rankedSymbols.take topN, []⟩
  else
    let g := greedyLoop corr maxAbsCorr topN rankedSymbols [] []
    ⟨padLoop topN rankedSymbols g.1, g.2⟩

/-- Sum of a rational list. -/
def listSum (l : List ℚ) : ℚ := l.foldl (· + ·) 0

/-- Mean of a rational list. -/
def qMean (l : List ℚ) : ℚ := listSum l / (l.length : ℚ)

/-- Centered cross-product sum Σ (xᵢ − x̄)(yᵢ − ȳ). -/
def covSum (xs ys : List ℚ) : ℚ :=
  listSum ((xs.zip ys).map fun p => (p.1 - qMean xs) * (p.2 - qMean ys))

/-- Centered square sum Σ (xᵢ − x̄)². -/
def varSum (xs : List ℚ) : ℚ := covSum xs xs

/-- Square-root-free characterization of the Pearson correlation
coefficient c = covSum / √(varSum xs · varSum ys): the squares match and
the signs agree, with positive variances. -/
def IsPearsonCorr (xs ys : List ℚ) (c : ℚ) : Prop :=
  0 < varSum xs ∧ 0 < varSum ys
    ∧ c ^ 2 * (varSum xs * varSum ys) = covSum xs ys ^ 2
    ∧ 0 ≤ c * covSum xs ys

/-- The correlation matrix of the spec scenario A = B = t, C = −t: identical
series correlate at 1, negated series at −1. -/
def corrABC (a b : String) : ℚ :=
  if a = b then 1
  else if a = "C" ∨ b = "C" then -1
  else 1

/-- Rounding down to a positive step never increases the value. -/
theorem roundDownToStep_le (value step : ℚ) (h : 0 < step) :
    roundDownToStep value step ≤ value := by
  unfold roundDownToStep
  rw [if_neg (not_le.mpr h)]
  calc ((⌊value / step⌋ : ℤ) : ℚ) * step ≤ (value / step) * step := by
        exact mul_le_mul_of_nonneg_right (Int.floor_le _) (le_of_lt h)
    _ = value := div_mul_cancel₀ value (ne_of_gt h)

/-- Rounding down to a positive step yields an exact integer multiple of it. -/
theorem roundDownToStep_mult (value step : ℚ) (h : 0 < step) :
    ∃ k : ℤ, roundDownToStep value step = (k : ℚ) * step := by
  refine ⟨⌊value / step⌋, ?_⟩
  unfold roundDownToStep
  rw [if_neg (not_le.mpr h)]

/-- C6 (amended): for symbol metadata with positive volume_min, volume_max and
volume_step, and additionally volume_min ≤ volume_max and volume_min an exact
multiple of volume_step, every successful compute_volume result v satisfies
volume_min ≤ v ≤ volume_max and v is an exact multiple of volume_step.  The
two additional hypotheses are forced by the counterexample: the final
floor-clamp back to volume_min can output volume_min itself, which the code
never checks against volume_max or against the step grid. -/
theorem C6_volume_bounds
    (equity riskPerTrade stopPoints : ℚ) (symbol : SymbolMeta)
    (vmin vmax vstep : ℚ)
    (hminEq : symbol.volumeMin = some vmin)
    (hmaxEq : symbol.volumeMax = some vmax)
    (hstepEq : symbol.volumeStep = some vstep)
    (hmin : 0 < vmin) (hmax : 0 < vmax) (hstep : 0 < vstep)
    (hmm : vmin ≤ vmax) (hmult : ∃ k : ℤ, vmin = (k : ℚ) * vstep)
    (v : ℚ)
    (hok : (computeVolume equity riskPerTrade stopPoints symbol).volume = some v) :
    vmin ≤ v ∧ v ≤ vmax ∧ ∃ k : ℤ, v = (k : ℚ) * vstep := by
  unfold computeVolume at hok
  rw [hminEq, hmaxEq, hstepEq] at hok
  simp only [Option.getD_some] at hok
  rw [if_pos hmin, if_pos hmax, if_pos hstep] at hok
  split at hok
  · exact absurd hok (by simp)
  split at hok
  · exact absurd hok (by simp)
  split at hok
  · exact absurd hok (by simp)
  split at hok
  · exact absurd hok (by simp)
  split at hok
  · -- the floor-clamp back to volume_min fired, so v = vmin
    rw [if_neg (not_le.mpr hmin)] at hok
    simp only [Option.some.injEq] at hok
    subst hok
    exact ⟨le_refl _, hmm, hmult⟩
  · rename_i hc
    split at hok
    · exact absurd hok (by simp)
    simp only [Option.some.injEq] at hok
    subst hok
    refine ⟨?_, ?_, roundDownToStep_mult _ vstep hstep⟩
    · by_contra hlt
      exact hc ⟨hmin, not_le.mp hlt⟩
    · exact le_trans (roundDownToStep_le _ vstep hstep) inf_le_right

/-- Witness for C6 at spec scenario 5: equity 1000, risk_per_trade 0.005,
stop 100 points, tick_value 1, tick_size = point = 0.00001, step = min = 0.01,
max = 100 gives volume 0.05, inside the bounds and on the step grid. -/
theorem C6_volume_bounds_witness :
    (computeVolume 1000 (1/200) 100 demoMeta).volume = some (1/20)
    ∧ ((1:ℚ)/100 ≤ 1/20 ∧ (1:ℚ)/20 ≤ 100 ∧ ∃ k : ℤ, (1:ℚ)/20 = (k : ℚ) * (1/100)) := by
  have h : (computeVolume 1000 (1/200) 100 demoMeta).volume = some (1/20) := by
    norm_num [computeVolume, roundDownToStep, demoMeta]
  exact ⟨h, C6_volume_bounds 1000 (1/200) 100 demoMeta (1/100) 100 (1/100)
    rfl rfl rfl (by norm_num) (by norm_num) (by norm_num) (by norm_num)
    ⟨1, by norm_num⟩ (1/20) h⟩

/-- Counterexample to C6 as stated: with volume_min = 17/16, volume_max = 1,
volume_step = 1/10 (all positive) and a tiny raw risk volume, compute_volume
succeeds with v = 17/16, which exceeds volume_max and is not an integer
multiple of volume_step. -/
theorem C6_counterexample :
    (computeVolume 1000 (1/1000000) 100 cexMeta).volume = some (17/16)
    ∧ ¬((17:ℚ)/16 ≤ 1)
    ∧ ¬∃ k : ℤ, (17:ℚ)/16 = (k : ℚ) * (1/10) := by
  refine ⟨?_, by norm_num, ?_⟩
  · norm_num [computeVolume, roundDownToStep, cexMeta]
  · rintro ⟨k, hk⟩
    have h2 : (170 : ℚ) = 16 * (k : ℚ) := by
      field_simp at hk
      linarith
    have h3 : (170 : ℤ) = 16 * k := by exact_mod_cast h2
    omega

theorem optThresholdHit_iff (t : ℚ) (o : Option ℚ) :
    optThresholdHit t o = true ↔ ∃ v, o = some v ∧ t ≤ v := by
  cases o <;> simp [optThresholdHit]

theorem cooloffActive_iff (nowUtc : Int) (o : Option Int) :
    cooloffActive nowUtc o = true ↔ ∃ c, o = some c ∧ nowUtc < c := by
  cases o <;> simp [cooloffActive]

set_option maxHeartbeats 1000000 in
/-- C5: after update_equity_state the paused flag is true iff the computed
daily loss reaches max_daily_loss_pct, or the computed drawdown reaches
max_drawdown_pct, or the wall clock is before the (post-update) cooloff
deadline; a reason is recorded whenever paused; and concretely, an equity
drop from 1000 to 1000·(1 − max_daily_loss_pct − 0.01) = 970 on the same
local date flips paused from false to true under the default config. -/
theorem C5_pause_conditions :
    (∀ (cfg : RiskCfg) (nowUtc : Int) (account : Option AccountM)
       (date : String) (st : RiskStateM),
       ((updateEquityState cfg nowUtc account date st).1.paused = true ↔
          (∃ v, (updateEquityState cfg nowUtc account date st).1.dailyLossPct = some v
             ∧ cfg.maxDailyLossPct ≤ v)
          ∨ (∃ v, (updateEquityState cfg nowUtc account date st).1.drawdownPct = some v
             ∧ cfg.maxDrawdownPct ≤ v)
          ∨ (∃ c, (updateEquityState cfg nowUtc account date st).2.cooloffUntil = some c
             ∧ nowUtc < c))
       ∧ ((updateEquityState cfg nowUtc account date st).1.paused = true →
          (updateEquityState cfg nowUtc account date st).1.pauseReason ≠ none))
    ∧ ((updateEquityState defaultRiskCfg 0 (some ⟨some 1000, some 1000⟩) "2026-01-01"
          initRiskState).1.paused = false
       ∧ (updateEquityState defaultRiskCfg 0 (some ⟨some 970, some 970⟩) "2026-01-01"
          (updateEquityState defaultRiskCfg 0 (some ⟨some 1000, some 1000⟩) "2026-01-01"
            initRiskState).2).1.paused = true) := by
  constructor
  · intro cfg nowUtc account date st
    constructor
    · simp only [updateEquityState]
      rw [Bool.or_eq_true, Bool.or_eq_true, optThresholdHit_iff, optThresholdHit_iff,
        cooloffActive_iff, or_assoc]
    · intro hp
      simp only [updateEquityState] at hp ⊢
      split_ifs with h1 h2 h3 <;> simp_all
  · constructor
    · simp [updateEquityState, applyDateRollover, applyPeakUpdate, computeDD, computeDL,
        optThresholdHit, cooloffActive, drawdownPct, dailyLossPct, defaultRiskCfg, initRiskState,
        Option.bind]
    · simp [updateEquityState, applyDateRollover, applyPeakUpdate, computeDD, computeDL,
        optThresholdHit, cooloffActive, drawdownPct, dailyLossPct, defaultRiskCfg, initRiskState,
        Option.bind]
      norm_num [max_def]

/-- Witness for C5: the implication conjunct applied at the concrete pausing
update (a pause reason is recorded once the daily-loss gate fires). -/
theorem C5_pause_conditions_witness :
    (updateEquityState defaultRiskCfg 0 (some ⟨some 970, some 970⟩) "2026-01-01"
      (updateEquityState defaultRiskCfg 0 (some ⟨some 1000, some 1000⟩) "2026-01-01"
        initRiskState).2).1.pauseReason ≠ none :=
  (C5_pause_conditions.1 defaultRiskCfg 0 (some ⟨some 970, some 970⟩) "2026-01-01"
      (updateEquityState defaultRiskCfg 0 (some ⟨some 1000, some 1000⟩) "2026-01-01"
        initRiskState).2).2 C5_pause_conditions.2.2

/-- The date-rollover phase never touches peak_equity. -/
theorem applyDateRollover_peak (equity : Option ℚ) (date : String) (st : RiskStateM) :
    (applyDateRollover equity date st).peakEquity = st.peakEquity := by
  unfold applyDateRollover
  split <;> rfl

/-- The peak phase can only keep or raise a present peak. -/
theorem applyPeakUpdate_mono (equity : Option ℚ) (st : RiskStateM) (p : ℚ)
    (hp : st.peakEquity = some p) :
    ∃ p', (applyPeakUpdate equity st).peakEquity = some p' ∧ p ≤ p' := by
  cases equity with
  | none => exact ⟨p, by simp only [applyPeakUpdate]; exact hp, le_refl p⟩
  | some e =>
    simp only [applyPeakUpdate]
    by_cases he : 0 < e
    · rw [if_pos he, hp]
      dsimp only
      by_cases hlt : p < e
      · exact ⟨e, by rw [if_pos hlt], le_of_lt hlt⟩
      · exact ⟨p, by rw [if_neg hlt]; exact hp, le_refl p⟩
    · rw [if_neg he]
      exact ⟨p, hp, le_refl p⟩

/-- The peak phase ends at least as high as a positive observed equity. -/
theorem applyPeakUpdate_observe (e : ℚ) (st : RiskStateM) (he : 0 < e) :
    ∃ p', (applyPeakUpdate (some e) st).peakEquity = some p' ∧ e ≤ p' := by
  simp only [applyPeakUpdate]
  rw [if_pos he]
  cases hp : st.peakEquity with
  | none =>
    dsimp only
    exact ⟨e, rfl, le_refl e⟩
  | some p =>
    dsimp only
    by_cases hlt : p < e
    · exact ⟨e, by rw [if_pos hlt], le_refl e⟩
    · exact ⟨p, by rw [if_neg hlt]; exact hp, le_of_not_lt hlt⟩

/-- One update_equity_state step keeps or raises a present peak. -/
theorem updateEquityState_peak_mono (cfg : RiskCfg) (nowUtc : Int)
    (account : Option AccountM) (date : String) (st : RiskStateM) (p : ℚ)
    (hp : st.peakEquity = some p) :
    ∃ p', (updateEquityState cfg nowUtc account date st).2.peakEquity = some p' ∧ p ≤ p' := by
  have h1 : (applyDateRollover (account.bind AccountM.equity) date st).peakEquity = some p := by
    rw [applyDateRollover_peak]; exact hp
  obtain ⟨p', hp', hle⟩ :=
    applyPeakUpdate_mono (account.bind AccountM.equity)
      (applyDateRollover (account.bind AccountM.equity) date st) p h1
  exact ⟨p', hp', hle⟩

/-- One update_equity_state step with a positive observed equity ends with a
peak at least that equity. -/
theorem updateEquityState_peak_observe (cfg : RiskCfg) (nowUtc : Int)
    (a : AccountM) (date : String) (st : RiskStateM) (e : ℚ)
    (ha : a.equity = some e) (he : 0 < e) :
    ∃ p', (updateEquityState cfg nowUtc (some a) date st).2.peakEquity = some p' ∧ e ≤ p' := by
  have hbind : (some a).bind AccountM.equity = some e := by
    simp [Option.bind, ha]
  simp only [updateEquityState, hbind]
  exact applyPeakUpdate_observe e (applyDateRollover (some e) date st) he

/-- A whole update sequence keeps or raises a present peak. -/
theorem applyEquityUpdates_peak_mono (cfg : RiskCfg)
    (updates : List (Int × Option AccountM × String)) :
    ∀ (st : RiskStateM) (p : ℚ), st.peakEquity = some p →
      ∃ p', (applyEquityUpdates cfg updates st).peakEquity = some p' ∧ p ≤ p' := by
  induction updates with
  | nil => exact fun st p hp => ⟨p, hp, le_refl p⟩
  | cons u rest ih =>
    intro st p hp
    obtain ⟨p₁, hp₁, hle₁⟩ := updateEquityState_peak_mono cfg u.1 u.2.1 u.2.2 st p hp
    obtain ⟨p₂, hp₂, hle₂⟩ := ih (updateEquityState cfg u.1 u.2.1 u.2.2 st).2 p₁ hp₁
    exact ⟨p₂, hp₂, le_trans hle₁ hle₂⟩

/-- C8 (amended): peak_equity is monotonically non-decreasing across
update_equity_state calls, and after any sequence of updates the final
peak_equity is at least every positive equity value observed in the
sequence.  (Positivity is forced by the counterexample: the code ignores
non-positive equities, so no peak exists after observing only those.) -/
theorem C8_peak_monotone :
    (∀ (cfg : RiskCfg) (nowUtc : Int) (account : Option AccountM)
       (date : String) (st : RiskStateM) (p : ℚ),
       st.peakEquity = some p →
       ∃ p', (updateEquityState cfg nowUtc account date st).2.peakEquity = some p' ∧ p ≤ p')
    ∧ (∀ (cfg : RiskCfg) (updates : List (Int × Option AccountM × String))
         (st : RiskStateM) (u : Int × Option AccountM × String) (a : AccountM) (e : ℚ),
         u ∈ updates → u.2.1 = some a → a.equity = some e → 0 < e →
         ∃ p, (applyEquityUpdates cfg updates st).peakEquity = some p ∧ e ≤ p) := by
  constructor
  · exact updateEquityState_peak_mono
  · intro cfg updates
    induction updates with
    | nil => intro st u a e hu; exact absurd hu (List.not_mem_nil u)
    | cons v rest ih =>
      intro st u a e hu ha hae he
      rcases List.mem_cons.mp hu with heq | htail
      · subst heq
        obtain ⟨p₁, hp₁, hle₁⟩ :=
          updateEquityState_peak_observe cfg u.1 a u.2.2 st e hae he
        rw [← ha] at hp₁
        obtain ⟨p₂, hp₂, hle₂⟩ :=
          applyEquityUpdates_peak_mono cfg rest (updateEquityState cfg u.1 u.2.1 u.2.2 st).2 p₁ hp₁
        exact ⟨p₂, hp₂, le_trans hle₁ hle₂⟩
      · exact ih (updateEquityState cfg v.1 v.2.1 v.2.2 st).2 u a e htail ha hae he

/-- Witness for C8: one update observing equity 1000 from the fresh state
yields a peak of at least 1000, and a further step keeps the peak. -/
theorem C8_peak_monotone_witness :
    (∃ p, (applyEquityUpdates defaultRiskCfg [(0, some ⟨some 1000, some 1000⟩, "2026-01-01")]
        initRiskState).peakEquity = some p ∧ (1000:ℚ) ≤ p)
    ∧ (∃ p', (updateEquityState defaultRiskCfg 0 none "2026-01-02"
        { initRiskState with peakEquity := some 5 }).2.peakEquity = some p' ∧ (5:ℚ) ≤ p') :=
  ⟨C8_peak_monotone.2 defaultRiskCfg [(0, some ⟨some 1000, some 1000⟩, "2026-01-01")]
      initRiskState (0, some ⟨some 1000, some 1000⟩, "2026-01-01") ⟨some 1000, some 1000⟩ 1000
      (List.mem_singleton.mpr rfl) rfl rfl (by norm_num),
   C8_peak_monotone.1 defaultRiskCfg 0 none "2026-01-02"
      { initRiskState with peakEquity := some 5 } 5 rfl⟩

/-- Counterexample to C8 as stated: from the fresh (reset) state, a single
update whose account reports equity 0 observes an equity value, yet leaves
peak_equity unset, so peak_equity is not ≥ that observed equity. -/
theorem C8_counterexample :
    ¬ ∃ p, (applyEquityUpdates defaultRiskCfg [(0, some ⟨some 0, none⟩, "2026-01-01")]
        initRiskState).peakEquity = some p ∧ (0:ℚ) ≤ p := by
  have h : (applyEquityUpdates defaultRiskCfg [(0, some ⟨some 0, none⟩, "2026-01-01")]
      initRiskState).peakEquity = none := by
    simp [applyEquityUpdates, updateEquityState, applyDateRollover, applyPeakUpdate,
      computeDD, computeDL, optThresholdHit, cooloffActive, initRiskState, defaultRiskCfg,
      Option.bind]
  rintro ⟨p, hp, -⟩
  rw [h] at hp
  exact Option.noConfusion hp

/-- C4 (amended): positions and deals whose magic number is PRESENT and
different from the configured magic number are ignored: count_positions
gives the same counts as on the list with those positions removed, and
on_new_deals leaves the state (loss_streak, cooloff) unchanged for such a
deal.  (Positions/deals with a missing magic are NOT ignored, see the
counterexample.) -/
theorem C4_magic_filter :
    (∀ (ps : List PositionM) (m : Int),
       countPositions ps (some m) = countPositions (ps.filter (keepPos m)) (some m))
    ∧ (∀ (cfg : RiskCfg) (nowUtc : Int) (m : Int) (st : RiskStateM) (d : DealM) (k : Int),
       d.magic = some k → k ≠ m → onNewDealsStep cfg nowUtc m st d = st) := by
  constructor
  · intro ps m
    unfold countPositions
    have haux : ∀ (l : List PositionM) (acc : PositionCounts),
        l.foldl
          (fun acc p =>
            if posSkipped (some m) p then acc
            else ⟨acc.total + 1,
                  fun s => if s = p.symbol then acc.perSymbol p.symbol + 1 else acc.perSymbol s⟩)
          acc
        = (l.filter (keepPos m)).foldl
          (fun acc p =>
            if posSkipped (some m) p then acc
            else ⟨acc.total + 1,
                  fun s => if s = p.symbol then acc.perSymbol p.symbol + 1 else acc.perSymbol s⟩)
          acc := by
      intro l
      induction l with
      | nil => intro acc; rfl
      | cons p rest ih =>
        intro acc
        by_cases hk : keepPos m p = true
        · have hskip : posSkipped (some m) p = false := by
            unfold keepPos at hk
            unfold posSkipped
            cases hpm : p.magic with
            | none => rfl
            | some k =>
              rw [hpm] at hk
              simp only [decide_eq_true_eq] at hk
              simp [hk]
          rw [List.filter_cons, if_pos hk]
          simp only [List.foldl_cons, hskip, if_neg Bool.false_ne_true]
          exact ih _
        · have hskip : posSkipped (some m) p = true := by
            unfold keepPos at hk
            unfold posSkipped
            cases hpm : p.magic with
            | none => rw [hpm] at hk; simp at hk
            | some k =>
              rw [hpm] at hk
              simp only [decide_eq_true_eq] at hk
              simp [hk]
          rw [List.filter_cons, if_neg hk]
          simp only [List.foldl_cons, hskip, if_pos rfl]
          exact ih _
    exact haux ps _
  · intro cfg nowUtc m st d k hd hk
    unfold onNewDealsStep
    rw [hd]
    simp [hk]

/-- Witness for C4: a foreign-magic position is not counted and a
foreign-magic closing deal leaves the risk state untouched. -/
theorem C4_magic_filter_witness :
    countPositions [⟨1, "EURUSD", some 99⟩] (some 26012026)
      = countPositions ([⟨1, "EURUSD", some 99⟩].filter (keepPos 26012026)) (some 26012026)
    ∧ onNewDealsStep defaultRiskCfg 0 26012026 initRiskState ⟨some 99, "OUT", some (-1)⟩
      = initRiskState :=
  ⟨C4_magic_filter.1 [⟨1, "EURUSD", some 99⟩] 26012026,
   C4_magic_filter.2 defaultRiskCfg 0 26012026 initRiskState ⟨some 99, "OUT", some (-1)⟩ 99
     rfl (by decide)⟩

/-- Counterexample to C4 as stated: a position with a MISSING magic is
counted (total 1, not 0), and a closing deal with a missing magic and a
negative profit increments loss_streak (1, not 0) — the code skips only
positions/deals whose magic is present and different. -/
theorem C4_counterexample :
    (countPositions [⟨1, "EURUSD", none⟩] (some 26012026)).total = 1
    ∧ (onNewDealsStep defaultRiskCfg 0 26012026 initRiskState
        ⟨none, "OUT", some (-1)⟩).lossStreak = 1 := by
  constructor
  · rfl
  · have hup : upperStr "OUT" = "OUT" := rfl
    simp [onNewDealsStep, defaultRiskCfg, initRiskState, hup]

/-- C10: check_entry with a side that is neither LONG nor SHORT (here FLAT)
returns allowed=false with reason "side is not entry", uniformly in the
positions, quote, symbol metadata, features and account — so no position
counting, SL/TP computation or volume sizing can influence the result. -/
theorem C10_flat_side_rejected (cfg : EntryRiskCfg) (st : RiskStateM) (symbol : String)
    (quote : QuoteM) (symbolMeta : SymbolMeta) (features : FeaturesM)
    (positions : List PositionM) (account : Option AccountM) :
    checkEntry cfg st symbol Side.flat quote symbolMeta features positions account
      = ⟨false, "side is not entry", Side.flat, none, none, none⟩ := rfl

/-- With trading enabled and the paper-only gate passing, open_trade reduces
to its dispatch phase. -/
theorem openTrade_gates (cfg : ExecCfg) (ai : Option AccountInfoM)
    (outcomes : Nat → AttemptOutcome) (key : String) (s : ExecState)
    (ht : cfg.tradingEnabled = true) (hg : paperGateAllows ai = true) :
    openTrade cfg ai outcomes key s = openDispatch cfg outcomes key s := by
  cases ai with
  | none => simp [openTrade, ht]
  | some a =>
    have h1 : ¬(a.tradeMode ≠ AccountTradeMode.demo ∧ a.tradeMode ≠ AccountTradeMode.contest) := by
      simp only [paperGateAllows, Bool.or_eq_true, decide_eq_true_eq] at hg
      rcases hg with h | h <;> simp [h]
    simp [openTrade, ht, h1]

/-- Same for close_trade. -/
theorem closeTrade_gates (cfg : ExecCfg) (ai : Option AccountInfoM)
    (outcomes : Nat → AttemptOutcome) (key : String) (s : ExecState)
    (ht : cfg.tradingEnabled = true) (hg : paperGateAllows ai = true) :
    closeTrade cfg ai outcomes key s = closeDispatch cfg outcomes key s := by
  cases ai with
  | none => simp [closeTrade, ht]
  | some a =>
    have h1 : ¬(a.tradeMode ≠ AccountTradeMode.demo ∧ a.tradeMode ≠ AccountTradeMode.contest) := by
      simp only [paperGateAllows, Bool.or_eq_true, decide_eq_true_eq] at hg
      rcases hg with h | h <;> simp [h]
    simp [closeTrade, ht, h1]

/-- Dispatch on a duplicate key aborts with no state change. -/
theorem openDispatch_duplicate (cfg : ExecCfg) (outcomes : Nat → AttemptOutcome)
    (key : String) (s : ExecState) (hdup : hasKey s key = true) :
    openDispatch cfg outcomes key s = (⟨"open", false, "duplicate idempotency key"⟩, s) := by
  unfold hasKey at hdup
  simp [openDispatch, tryInsert, hdup]

/-- Same for the close dispatch. -/
theorem closeDispatch_duplicate (cfg : ExecCfg) (outcomes : Nat → AttemptOutcome)
    (key : String) (s : ExecState) (hdup : hasKey s key = true) :
    closeDispatch cfg outcomes key s = (⟨"close", false, "duplicate idempotency key"⟩, s) := by
  unfold hasKey at hdup
  simp [closeDispatch, tryInsert, hdup]

/-- When the first attempt returns an OrderResult, call_with_retries makes
exactly one place_order invocation. -/
theorem callWithRetries_first_result (outcomes : Nat → AttemptOutcome) (maxAttempts : Nat)
    (b : Bool) (r : Int) (hmax : 1 ≤ maxAttempts)
    (h0 : outcomes 0 = AttemptOutcome.result b r) :
    callWithRetries outcomes maxAttempts = (RetryResult.ok b r, 1) := by
  unfold callWithRetries
  cases maxAttempts with
  | zero => omega
  | succ k =>
    unfold cwrGo
    rw [h0]

/-- Rewriting the status of an absent key changes nothing. -/
theorem map_update_fresh (rows : List DecisionRow) (key stN : String)
    (hf : rows.any (fun r => decide (r.idempotencyKey = key)) = false) :
    rows.map
        (fun r => if r.idempotencyKey = key then { r with status := stN } else r)
      = rows := by
  simp only [List.any_eq_false, decide_eq_true_eq] at hf
  have h1 : List.map
      (fun (r : DecisionRow) => if r.idempotencyKey = key then { r with status := stN } else r)
      rows = List.map id rows :=
    List.map_congr_left (fun r hr => if_neg (hf r hr))
  rw [h1, List.map_id]

/-- Filtering for a key appended to a store free of that key returns just
the appended row. -/
theorem filter_rows_fresh (rows : List DecisionRow) (key stN : String)
    (hf : rows.any (fun r => decide (r.idempotencyKey = key)) = false) :
    (rows ++ [(⟨stN, key⟩ : DecisionRow)]).filter
        (fun (r : DecisionRow) => decide (r.idempotencyKey = key))
      = [(⟨stN, key⟩ : DecisionRow)] := by
  rw [List.filter_append]
  simp only [List.any_eq_false, decide_eq_true_eq] at hf
  have h1 : List.filter (fun (r : DecisionRow) => decide (r.idempotencyKey = key)) rows = [] :=
    List.filter_eq_nil_iff.mpr (by intro a ha; simpa using hf a ha)
  rw [h1]
  simp

/-- Dispatch on a fresh key whose first broker attempt returns a result:
exactly one place_order invocation, and exactly one terminal row appended. -/
theorem openDispatch_fresh_eq (cfg : ExecCfg) (outcomes : Nat → AttemptOutcome)
    (key : String) (s : ExecState) (b : Bool) (r : Int)
    (hfresh : hasKey s key = false) (hmax : 1 ≤ cfg.maxAttempts)
    (h0 : outcomes 0 = AttemptOutcome.result b r) :
    openDispatch cfg outcomes key s
      = (if b = false then (⟨"open", false, "retcode=" ++ toString r⟩ : ExecReport)
         else ⟨"open", true, "opened"⟩,
         ⟨s.decisions ++ [⟨if b = false then "error" else "opened", key⟩],
          s.placeOrderCalls + 1⟩) := by
  unfold hasKey at hfresh
  have hcall := callWithRetries_first_result outcomes cfg.maxAttempts b r hmax h0
  simp only [openDispatch, tryInsert, hfresh, Bool.false_eq_true, if_false, hcall,
    updateDecision]
  cases b with
  | false =>
    simp [map_update_fresh s.decisions key "error" hfresh]
  | true =>
    simp [map_update_fresh s.decisions key "opened" hfresh]

/-- C1: a duplicate idempotency key makes open_trade and close_trade return
an unsuccessful report with reason "duplicate idempotency key" and leave
the world untouched (no place_order call, no new row); the key is a
deterministic function of the five-field tuple; and two open attempts with
the same key starting from a store free of it make exactly one place_order
invocation and leave exactly one row for the key, with a terminal status. -/
theorem C1_idempotency :
    (∀ (h : String → String) (t₁ t₂ : FiveTuple), t₁ = t₂ →
       makeIdempotencyKey h t₁ = makeIdempotencyKey h t₂)
    ∧ (∀ (cfg : ExecCfg) (ai : Option AccountInfoM) (outcomes : Nat → AttemptOutcome)
         (key : String) (s : ExecState),
         cfg.tradingEnabled = true → paperGateAllows ai = true → hasKey s key = true →
         openTrade cfg ai outcomes key s = (⟨"open", false, "duplicate idempotency key"⟩, s)
         ∧ closeTrade cfg ai outcomes key s = (⟨"close", false, "duplicate idempotency key"⟩, s))
    ∧ (∀ (cfg₁ cfg₂ : ExecCfg) (ai₁ ai₂ : Option AccountInfoM)
         (outs₁ outs₂ : Nat → AttemptOutcome) (key : String) (s₀ : ExecState)
         (b : Bool) (r : Int),
         cfg₁.tradingEnabled = true → cfg₂.tradingEnabled = true →
         paperGateAllows ai₁ = true → paperGateAllows ai₂ = true →
         hasKey s₀ key = false → 1 ≤ cfg₁.maxAttempts →
         outs₁ 0 = AttemptOutcome.result b r →
         ((openTrade cfg₂ ai₂ outs₂ key (openTrade cfg₁ ai₁ outs₁ key s₀).2).2.placeOrderCalls
            = s₀.placeOrderCalls + 1
          ∧ ∃ stN, isTerminalStatus stN = true
              ∧ keyRows (openTrade cfg₂ ai₂ outs₂ key (openTrade cfg₁ ai₁ outs₁ key s₀).2).2 key
                  = [⟨stN, key⟩])) := by
  refine ⟨fun h t₁ t₂ ht => by rw [ht], ?_, ?_⟩
  · intro cfg ai outcomes key s ht hg hdup
    rw [openTrade_gates cfg ai outcomes key s ht hg,
      closeTrade_gates cfg ai outcomes key s ht hg]
    exact ⟨openDispatch_duplicate cfg outcomes key s hdup,
      closeDispatch_duplicate cfg outcomes key s hdup⟩
  · intro cfg₁ cfg₂ ai₁ ai₂ outs₁ outs₂ key s₀ b r ht₁ ht₂ hg₁ hg₂ hfresh hmax h0
    rw [openTrade_gates cfg₁ ai₁ outs₁ key s₀ ht₁ hg₁,
      openDispatch_fresh_eq cfg₁ outs₁ key s₀ b r hfresh hmax h0]
    have hfreshRows : s₀.decisions.any (fun r => decide (r.idempotencyKey = key)) = false := hfresh
    have hdup1 : hasKey
        (⟨s₀.decisions ++ [⟨if b = false then "error" else "opened", key⟩],
          s₀.placeOrderCalls + 1⟩ : ExecState) key = true := by
      simp [hasKey]
    rw [openTrade_gates cfg₂ ai₂ outs₂ key _ ht₂ hg₂,
      openDispatch_duplicate cfg₂ outs₂ key _ hdup1]
    refine ⟨rfl, ⟨if b = false then "error" else "opened", ?_, ?_⟩⟩
    · cases b <;> rfl
    · exact filter_rows_fresh s₀.decisions key _ hfreshRows

/-- Witness for C1: key determinism on the spec's tuple, the duplicate
short-circuit on a store that already holds the key, and the two-attempt
run from an empty store making one broker call and one terminal row. -/
theorem C1_idempotency_witness :
    (makeIdempotencyKey id ⟨"EURUSD", "H1", "2026-01-01T00:00:00+00:00", "two_pole_momentum", "long"⟩
      = makeIdempotencyKey id ⟨"EURUSD", "H1", "2026-01-01T00:00:00+00:00", "two_pole_momentum", "long"⟩)
    ∧ openTrade demoExecCfg demoAi okOutcomes "k" ⟨[⟨"opened", "k"⟩], 1⟩
        = (⟨"open", false, "duplicate idempotency key"⟩, ⟨[⟨"opened", "k"⟩], 1⟩)
    ∧ ((openTrade demoExecCfg demoAi okOutcomes "k"
          (openTrade demoExecCfg demoAi okOutcomes "k" ⟨[], 0⟩).2).2.placeOrderCalls = 1
       ∧ ∃ stN, isTerminalStatus stN = true
           ∧ keyRows (openTrade demoExecCfg demoAi okOutcomes "k"
               (openTrade demoExecCfg demoAi okOutcomes "k" ⟨[], 0⟩).2).2 "k" = [⟨stN, "k"⟩]) :=
  ⟨C1_idempotency.1 id _ _ rfl,
   (C1_idempotency.2.1 demoExecCfg demoAi okOutcomes "k" ⟨[⟨"opened", "k"⟩], 1⟩
      rfl (by decide) (by decide)).1,
   C1_idempotency.2.2 demoExecCfg demoExecCfg demoAi demoAi okOutcomes okOutcomes "k" ⟨[], 0⟩
      true 10009 rfl rfl (by decide) (by decide) (by decide) (by decide) rfl⟩

/-- C2: with trading enabled, an account whose trade_mode is neither DEMO
nor CONTEST makes open_trade and close_trade return an unsuccessful report
whose reason is the paper-only gate, with the state unchanged — in
particular place_order is never invoked. -/
theorem C2_paper_only_gate (cfg : ExecCfg) (m : AccountTradeMode)
    (outcomes : Nat → AttemptOutcome) (key : String) (s : ExecState)
    (ht : cfg.tradingEnabled = true) (hd : m ≠ AccountTradeMode.demo)
    (hc : m ≠ AccountTradeMode.contest) :
    openTrade cfg (some ⟨m⟩) outcomes key s
      = (⟨"open", false, "paper-only gate: trade_mode=" ++ tradeModeStr m⟩, s)
    ∧ closeTrade cfg (some ⟨m⟩) outcomes key s
      = (⟨"close", false, "paper-only gate: trade_mode=" ++ tradeModeStr m⟩, s) := by
  constructor
  · simp [openTrade, ht, hd, hc]
  · simp [closeTrade, ht, hd, hc]

/-- Witness for C2 on a REAL account with an otherwise-willing broker and an
empty store. -/
theorem C2_paper_only_gate_witness :
    openTrade demoExecCfg (some ⟨AccountTradeMode.real⟩) okOutcomes "k" ⟨[], 0⟩
      = (⟨"open", false, "paper-only gate: trade_mode="
          ++ tradeModeStr AccountTradeMode.real⟩, ⟨[], 0⟩)
    ∧ closeTrade demoExecCfg (some ⟨AccountTradeMode.real⟩) okOutcomes "k" ⟨[], 0⟩
      = (⟨"close", false, "paper-only gate: trade_mode="
          ++ tradeModeStr AccountTradeMode.real⟩, ⟨[], 0⟩) :=
  C2_paper_only_gate demoExecCfg AccountTradeMode.real okOutcomes "k" ⟨[], 0⟩
    rfl (by decide) (by decide)

/-- Each pollStep either emits nothing and keeps the state, or emits a close
time strictly above the previous state and stores it. -/
theorem pollStep_cases (tfSecs : Int) (bars : Option (List Int)) (last : Option Int) :
    (pollStep tfSecs bars last).1 = none ∧ (pollStep tfSecs bars last).2 = last
    ∨ ∃ c, (pollStep tfSecs bars last).1 = some c
        ∧ (pollStep tfSecs bars last).2 = some c
        ∧ ∀ v, last = some v → v < c := by
  cases bars with
  | none => exact Or.inl ⟨rfl, rfl⟩
  | some l =>
    simp only [pollStep]
    by_cases hl : l.length < 3
    · rw [if_pos hl]
      exact Or.inl ⟨rfl, rfl⟩
    · rw [if_neg hl]
      cases last with
      | none =>
        exact Or.inr ⟨l.getD (l.length - 2) 0 + tfSecs, rfl, rfl, fun v hv => by cases hv⟩
      | some lastv =>
        dsimp only
        by_cases hlt : lastv < l.getD (l.length - 2) 0 + tfSecs
        · rw [if_pos hlt]
          exact Or.inr ⟨l.getD (l.length - 2) 0 + tfSecs, rfl, rfl,
            fun v hv => by cases hv; exact hlt⟩
        · rw [if_neg hlt]
          exact Or.inl ⟨rfl, rfl⟩

/-- All close times emitted by a poll sequence exceed the initial scheduler
state. -/
theorem pollSeq_gt (tfSecs : Int) (inputs : List (Option (List Int))) :
    ∀ (last : Option Int) (v : Int), last = some v →
      ∀ x ∈ (pollSeq tfSecs inputs last).1, v < x := by
  induction inputs with
  | nil => intro last v hv x hx; cases hx
  | cons b bs ih =>
    intro last v hv x hx
    rcases pollStep_cases tfSecs b last with ⟨h1, h2⟩ | ⟨c, h1, h2, h3⟩
    · have hx' : x ∈ (pollSeq tfSecs bs last).1 := by
        simp only [pollSeq, h1] at hx
        rwa [h2] at hx
      exact ih last v hv x hx'
    · have hx' : x ∈ c :: (pollSeq tfSecs bs (some c)).1 := by
        simp only [pollSeq, h1] at hx
        rwa [h2] at hx
      rcases List.mem_cons.mp hx' with hxc | hxrest
      · subst hxc; exact h3 v hv
      · exact lt_trans (h3 v hv) (ih (some c) c rfl x hxrest)

/-- Emitted close times are pairwise strictly increasing. -/
theorem pollSeq_pairwise (tfSecs : Int) (inputs : List (Option (List Int))) :
    ∀ (last : Option Int), List.Pairwise (· < ·) (pollSeq tfSecs inputs last).1 := by
  induction inputs with
  | nil => intro last; exact List.Pairwise.nil
  | cons b bs ih =>
    intro last
    rcases pollStep_cases tfSecs b last with ⟨h1, h2⟩ | ⟨c, h1, h2, h3⟩
    · simp only [pollSeq, h1]
      rw [h2]
      exact ih last
    · simp only [pollSeq, h1]
      rw [h2]
      exact List.Pairwise.cons (fun x hx => pollSeq_gt tfSecs bs (some c) c rfl x hx) (ih (some c))

/-- C3: over any sequence of poll calls from any scheduler state, the emitted
candle-close times are strictly increasing (each exceeds every previously
emitted one), and a single poll whose computed close time (second-to-last
bar open time plus the timeframe seconds) does not exceed the stored last
close time emits nothing and keeps the state. -/
theorem C3_scheduler_monotone :
    (∀ (tfSecs : Int) (inputs : List (Option (List Int))) (last : Option Int),
       List.Pairwise (· < ·) (pollSeq tfSecs inputs last).1)
    ∧ (∀ (tfSecs : Int) (l : List Int) (lastv : Int),
       ¬ l.length < 3 → l.getD (l.length - 2) 0 + tfSecs ≤ lastv →
       pollStep tfSecs (some l) (some lastv) = (none, some lastv)) := by
  constructor
  · intro tfSecs inputs last
    exact pollSeq_pairwise tfSecs inputs last
  · intro tfSecs l lastv hl hle
    simp only [pollStep]
    rw [if_neg hl, if_neg (not_lt.mpr hle)]

/-- Witness for C3 on H1 bars: three polls over advancing hourly bars emit
increasing close times, and a poll whose computed close time equals the
stored one emits nothing. -/
theorem C3_scheduler_monotone_witness :
    List.Pairwise (· < ·)
      (pollSeq 3600 [some [0, 3600, 7200], some [0, 3600, 7200], some [3600, 7200, 10800]]
        none).1
    ∧ pollStep 3600 (some [0, 3600, 7200]) (some 7200) = (none, some 7200) :=
  ⟨C3_scheduler_monotone.1 3600
      [some [0, 3600, 7200], some [0, 3600, 7200], some [3600, 7200, 10800]] none,
   C3_scheduler_monotone.2 3600 [0, 3600, 7200] 7200 (by decide) (by decide)⟩

theorem foldl_min_le_init (xs : List ℚ) : ∀ a : ℚ, xs.foldl min a ≤ a := by
  induction xs with
  | nil => exact fun a => le_refl a
  | cons y ys ih => exact fun a => le_trans (ih (min a y)) (min_le_left a y)

theorem foldl_min_le_mem (xs : List ℚ) : ∀ (a x : ℚ), x ∈ xs → xs.foldl min a ≤ x := by
  induction xs with
  | nil => intro a x hx; cases hx
  | cons y ys ih =>
    intro a x hx
    rcases List.mem_cons.mp hx with hxy | hxs
    · subst hxy
      exact le_trans (foldl_min_le_init ys (min a x)) (min_le_right a x)
    · exact ih (min a y) x hxs

theorem foldl_max_init_le (xs : List ℚ) : ∀ a : ℚ, a ≤ xs.foldl max a := by
  induction xs with
  | nil => exact fun a => le_refl a
  | cons y ys ih => exact fun a => le_trans (le_max_left a y) (ih (max a y))

theorem foldl_max_mem_le (xs : List ℚ) : ∀ (a x : ℚ), x ∈ xs → x ≤ xs.foldl max a := by
  induction xs with
  | nil => intro a x hx; cases hx
  | cons y ys ih =>
    intro a x hx
    rcases List.mem_cons.mp hx with hxy | hxs
    · subst hxy
      exact le_trans (le_max_right a x) (foldl_max_init_le ys (max a x))
    · exact ih (max a y) x hxs

theorem listMin_le (l : List ℚ) (x : ℚ) (hx : x ∈ l) : listMin l ≤ x := by
  cases l with
  | nil => cases hx
  | cons y ys =>
    rcases List.mem_cons.mp hx with hxy | hxs
    · subst hxy; exact foldl_min_le_init ys x
    · exact foldl_min_le_mem ys y x hxs

theorem le_listMax (l : List ℚ) (x : ℚ) (hx : x ∈ l) : x ≤ listMax l := by
  cases l with
  | nil => cases hx
  | cons y ys =>
    rcases List.mem_cons.mp hx with hxy | hxs
    · subst hxy; exact foldl_max_init_le ys x
    · exact foldl_max_mem_le ys y x hxs

theorem mem_finiteVals (l : List NV) (q : ℚ) (h : NV.fin q ∈ l) : q ∈ finiteVals l := by
  induction l with
  | nil => cases h
  | cons v rest ih =>
    rcases List.mem_cons.mp h with hv | hrest
    · rw [← hv]
      simp only [finiteVals]
      exact List.mem_cons_self q (finiteVals rest)
    · cases v with
      | nan => simp only [finiteVals]; exact ih hrest
      | pinf => simp only [finiteVals]; exact ih hrest
      | ninf => simp only [finiteVals]; exact ih hrest
      | fin p => simp only [finiteVals]; exact List.mem_cons_of_mem p (ih hrest)

theorem finiteVals_mem (l : List NV) (q : ℚ) (h : q ∈ finiteVals l) : NV.fin q ∈ l := by
  induction l with
  | nil => simp [finiteVals] at h
  | cons v rest ih =>
    cases v with
    | nan => simp only [finiteVals] at h; exact List.mem_cons_of_mem _ (ih h)
    | pinf => simp only [finiteVals] at h; exact List.mem_cons_of_mem _ (ih h)
    | ninf => simp only [finiteVals] at h; exact List.mem_cons_of_mem _ (ih h)
    | fin p =>
      simp only [finiteVals] at h
      rcases List.mem_cons.mp h with hq | hq
      · rw [hq]; exact List.mem_cons_self _ _
      · exact List.mem_cons_of_mem _ (ih hq)

/-- Division bounds: a sample value scaled by the sample's min and range
lands in the unit interval. -/
theorem unit_div_of_mem (l' : List ℚ) (q : ℚ) (hq : q ∈ l')
    (hd : 0 < listMax l' - listMin l') :
    0 ≤ (q - listMin l') / (listMax l' - listMin l')
    ∧ (q - listMin l') / (listMax l' - listMin l') ≤ 1 := by
  constructor
  · exact div_nonneg (by linarith [listMin_le l' q hq]) (le_of_lt hd)
  · rw [div_le_one hd]
    linarith [le_listMax l' q hq]

/-- C7 (amended): robust_minmax preserves length; on arrays whose cells are
all finite or NaN, every output cell is a finite value in [0,1] or is NaN
at a NaN input (an infinite input escapes [0,1] in the plain-min-max
fallback, see the counterexample); when the IQR of the finite sample is
≤ 1e-12 the code falls back to plain min-max over the unclipped values;
and when the finite range is also ≤ 1e-12 every output is 0.5. -/
theorem C7_robust_minmax :
    (∀ l : List NV, (robustMinmax l).length = l.length)
    ∧ (∀ l : List NV, (∀ v ∈ l, v ≠ NV.pinf ∧ v ≠ NV.ninf) →
        List.Forall₂ UnitOrNanAt l (robustMinmax l))
    ∧ (∀ l : List NV, ¬(finiteVals l).length = 0 → rmIqr l ≤ EPS →
        ¬|listMax (finiteVals l) - listMin (finiteVals l)| ≤ EPS →
        robustMinmax l
          = l.map fun v =>
              (v.sub (listMin (finiteVals l))).divPos
                (listMax (finiteVals l) - listMin (finiteVals l)))
    ∧ (∀ l : List NV, ¬(finiteVals l).length = 0 → rmIqr l ≤ EPS →
        |listMax (finiteVals l) - listMin (finiteVals l)| ≤ EPS →
        robustMinmax l = l.map fun _ => NV.fin (1/2)) := by
  have hEPS : (0:ℚ) < EPS := by norm_num [EPS]
  refine ⟨?_, ?_, ?_, ?_⟩
  · intro l
    unfold robustMinmax
    split
    · exact List.length_map l _
    · split
      · split
        · exact List.length_map l _
        · exact List.length_map l _
      · split
        · exact List.length_map l _
        · simp [rmClipped]
  · intro l hno
    by_cases h0 : (finiteVals l).length = 0
    · have hb : robustMinmax l = l.map fun _ => NV.nan := by
        unfold robustMinmax; rw [if_pos h0]
      rw [hb, List.forall₂_map_right_iff]
      refine List.forall₂_same.mpr ?_
      intro v hv
      have hvnan : v = NV.nan := by
        cases v with
        | nan => rfl
        | pinf => exact absurd rfl (hno _ hv).1
        | ninf => exact absurd rfl (hno _ hv).2
        | fin q =>
          have hq : q ∈ finiteVals l := mem_finiteVals l q hv
          rw [List.length_eq_zero] at h0
          rw [h0] at hq
          cases hq
      exact hvnan
    · by_cases hiqr : rmIqr l ≤ EPS
      · by_cases hr : |listMax (finiteVals l) - listMin (finiteVals l)| ≤ EPS
        · have hb : robustMinmax l = l.map fun _ => NV.fin (1/2) := by
            unfold robustMinmax; rw [if_neg h0, if_pos hiqr, if_pos hr]
          rw [hb, List.forall₂_map_right_iff]
          refine List.forall₂_same.mpr ?_
          intro v hv
          exact ⟨by norm_num, by norm_num⟩
        · have hb : robustMinmax l
              = l.map fun v =>
                  (v.sub (listMin (finiteVals l))).divPos
                    (listMax (finiteVals l) - listMin (finiteVals l)) := by
            unfold robustMinmax; rw [if_neg h0, if_pos hiqr, if_neg hr]
          rw [hb, List.forall₂_map_right_iff]
          refine List.forall₂_same.mpr ?_
          intro v hv
          cases v with
          | nan => exact rfl
          | pinf => exact absurd rfl (hno _ hv).1
          | ninf => exact absurd rfl (hno _ hv).2
          | fin q =>
            have hq : q ∈ finiteVals l := mem_finiteVals l q hv
            have hmm : listMin (finiteVals l) ≤ listMax (finiteVals l) :=
              le_trans (listMin_le _ q hq) (le_listMax _ q hq)
            have hd : 0 < listMax (finiteVals l) - listMin (finiteVals l) := by
              have h1 : EPS < |listMax (finiteVals l) - listMin (finiteVals l)| := not_le.mp hr
              rw [abs_of_nonneg (by linarith)] at h1
              linarith
            exact unit_div_of_mem (finiteVals l) q hq hd
      · by_cases hr : |listMax (finiteVals (rmClipped l)) - listMin (finiteVals (rmClipped l))|
            ≤ EPS
        · have hb : robustMinmax l = l.map fun _ => NV.fin (1/2) := by
            unfold robustMinmax; rw [if_neg h0, if_neg hiqr, if_pos hr]
          rw [hb, List.forall₂_map_right_iff]
          refine List.forall₂_same.mpr ?_
          intro v hv
          exact ⟨by norm_num, by norm_num⟩
        · have hb : robustMinmax l
              = (l.map fun v => v.clip (rmLo l) (rmHi l)).map fun v =>
                  (v.sub (listMin (finiteVals (rmClipped l)))).divPos
                    (listMax (finiteVals (rmClipped l)) - listMin (finiteVals (rmClipped l))) := by
            unfold robustMinmax
            rw [if_neg h0, if_neg hiqr, if_neg hr, rmClipped]
          rw [hb, List.map_map, List.forall₂_map_right_iff]
          refine List.forall₂_same.mpr ?_
          intro v hv
          cases v with
          | nan => exact rfl
          | pinf => exact absurd rfl (hno _ hv).1
          | ninf => exact absurd rfl (hno _ hv).2
          | fin q =>
            have hcmem : NV.fin (min (max q (rmLo l)) (rmHi l)) ∈ rmClipped l := by
              exact List.mem_map_of_mem _ hv
            have hc : min (max q (rmLo l)) (rmHi l) ∈ finiteVals (rmClipped l) :=
              mem_finiteVals _ _ hcmem
            have hmm : listMin (finiteVals (rmClipped l)) ≤ listMax (finiteVals (rmClipped l)) :=
              le_trans (listMin_le _ _ hc) (le_listMax _ _ hc)
            have hd : 0 < listMax (finiteVals (rmClipped l)) - listMin (finiteVals (rmClipped l)) := by
              have h1 := not_le.mp hr
              rw [abs_of_nonneg (by linarith)] at h1
              linarith
            exact unit_div_of_mem (finiteVals (rmClipped l)) _ hc hd
  · intro l h0 hiqr hr
    unfold robustMinmax
    rw [if_neg h0, if_pos hiqr, if_neg hr]
  · intro l h0 hiqr hr
    unfold robustMinmax
    rw [if_neg h0, if_pos hiqr, if_pos hr]

/-- Witness for C7: the main clipping path on [0, 2, NaN] (length and
unit-or-NaN), the plain-min-max fallback on [0,0,0,0,1] (IQR 0, range 1),
and the constant 0.5 output on the constant sample [5,5]. -/
theorem C7_robust_minmax_witness :
    (robustMinmax [NV.fin 0, NV.fin 2, NV.nan]).length = 3
    ∧ List.Forall₂ UnitOrNanAt [NV.fin 0, NV.fin 2, NV.nan]
        (robustMinmax [NV.fin 0, NV.fin 2, NV.nan])
    ∧ robustMinmax [NV.fin 0, NV.fin 0, NV.fin 0, NV.fin 0, NV.fin 1]
        = [NV.fin 0, NV.fin 0, NV.fin 0, NV.fin 0, NV.fin 1].map (fun v =>
            (v.sub (listMin (finiteVals [NV.fin 0, NV.fin 0, NV.fin 0, NV.fin 0, NV.fin 1]))).divPos
              (listMax (finiteVals [NV.fin 0, NV.fin 0, NV.fin 0, NV.fin 0, NV.fin 1])
                - listMin (finiteVals [NV.fin 0, NV.fin 0, NV.fin 0, NV.fin 0, NV.fin 1])))
    ∧ robustMinmax [NV.fin 5, NV.fin 5] = [NV.fin 5, NV.fin 5].map (fun _ => NV.fin (1/2)) :=
  ⟨C7_robust_minmax.1 _,
   C7_robust_minmax.2.1 _ (by decide),
   C7_robust_minmax.2.2.1 _ (by norm_num [finiteVals])
     (by norm_num [rmIqr, npQuantile, sortQ, insertQ, finiteVals, EPS, nthOrZ])
     (by norm_num [finiteVals, listMin, listMax, EPS]),
   C7_robust_minmax.2.2.2 _ (by norm_num [finiteVals])
     (by norm_num [rmIqr, npQuantile, sortQ, insertQ, finiteVals, EPS, nthOrZ])
     (by norm_num [finiteVals, listMin, listMax, EPS])⟩

/-- Counterexample to C7 as stated: on [0,0,0,0,1,+inf] the IQR of the
finite sample is 0, so the code falls back to plain min-max over the RAW
(unclipped) values, and the +inf input maps to +inf — an output that is
neither a value in [0,1] nor NaN. -/
theorem C7_counterexample :
    robustMinmax [NV.fin 0, NV.fin 0, NV.fin 0, NV.fin 0, NV.fin 1, NV.pinf]
      = [NV.fin 0, NV.fin 0, NV.fin 0, NV.fin 0, NV.fin 1, NV.pinf]
    ∧ ¬ (∀ v ∈ robustMinmax [NV.fin 0, NV.fin 0, NV.fin 0, NV.fin 0, NV.fin 1, NV.pinf],
          (∃ q, v = NV.fin q ∧ 0 ≤ q ∧ q ≤ 1) ∨ v = NV.nan) := by
  have h : robustMinmax [NV.fin 0, NV.fin 0, NV.fin 0, NV.fin 0, NV.fin 1, NV.pinf]
      = [NV.fin 0, NV.fin 0, NV.fin 0, NV.fin 0, NV.fin 1, NV.pinf] := by
    norm_num [robustMinmax, rmIqr, npQuantile, sortQ, insertQ, finiteVals, listMin, listMax,
      EPS, NV.sub, NV.divPos, nthOrZ]
  refine ⟨h, ?_⟩
  intro hall
  have hp := hall NV.pinf (by rw [h]; simp)
  rcases hp with ⟨q, hq, -, -⟩ | hq
  · exact NV.noConfusion hq
  · exact NV.noConfusion hq

/-- The greedy phase only ever admits a symbol whose correlation with every
already-admitted symbol is within the bound. -/
theorem greedyLoop_pairwise (corr : String → String → ℚ) (maxAbsCorr : ℚ) (topN : Nat) :
    ∀ (pending selected : List String) (excluded : List (String × String)),
      List.Pairwise (fun a b => |corr b a| ≤ maxAbsCorr) selected →
      List.Pairwise (fun a b => |corr b a| ≤ maxAbsCorr)
        (greedyLoop corr maxAbsCorr topN pending selected excluded).1 := by
  intro pending
  induction pending with
  | nil => exact fun selected excluded h => h
  | cons sym rest ih =>
    intro selected excluded h
    simp only [greedyLoop]
    by_cases htop : topN ≤ selected.length
    · rw [if_pos htop]; exact h
    · rw [if_neg htop]
      cases hfind : selected.find? (fun s2 => decide (maxAbsCorr < |corr sym s2|)) with
      | some s2 => exact ih selected _ h
      | none =>
        apply ih
        rw [List.pairwise_append]
        refine ⟨h, List.pairwise_singleton _ _, ?_⟩
        intro a ha b hb
        rw [List.mem_singleton] at hb
        subst hb
        have hnone := List.find?_eq_none.mp hfind a ha
        simp only [decide_eq_true_eq] at hnone
        exact not_lt.mp hnone

/-- The greedy phase never exceeds top_n selections. -/
theorem greedyLoop_length (corr : String → String → ℚ) (maxAbsCorr : ℚ) (topN : Nat) :
    ∀ (pending selected : List String) (excluded : List (String × String)),
      selected.length ≤ topN →
      (greedyLoop corr maxAbsCorr topN pending selected excluded).1.length ≤ topN := by
  intro pending
  induction pending with
  | nil => exact fun selected excluded h => h
  | cons sym rest ih =>
    intro selected excluded h
    simp only [greedyLoop]
    by_cases htop : topN ≤ selected.length
    · rw [if_pos htop]; exact h
    · rw [if_neg htop]
      cases hfind : selected.find? (fun s2 => decide (maxAbsCorr < |corr sym s2|)) with
      | some s2 => exact ih selected _ h
      | none =>
        apply ih
        rw [List.length_append, List.length_singleton]
        omega

/-- The padding loop never exceeds top_n selections. -/
theorem padLoop_length (topN : Nat) :
    ∀ (pending selected : List String), selected.length ≤ topN →
      (padLoop topN pending selected).length ≤ topN := by
  intro pending
  induction pending with
  | nil => exact fun selected h => h
  | cons sym rest ih =>
    intro selected h
    simp only [padLoop]
    by_cases htop : topN ≤ selected.length
    · rw [if_pos htop]; exact h
    · rw [if_neg htop]
      by_cases hmem : sym ∈ selected
      · rw [if_pos hmem]; exact ih selected h
      · rw [if_neg hmem]
        apply ih
        rw [List.length_append, List.length_singleton]
        omega

/-- C9: the greedy correlation filter admits a symbol only when its absolute
correlation with every already-admitted symbol is at most max_abs_corr
(pairwise property of the greedy phase); the final selection never exceeds
top_n (padding with the next ranked symbols when fewer survive); and on the
spec scenario with return series A = B = t, C = −t (whose Pearson
correlations are certified as 1 and −1 by the sqrt-free characterization),
max_abs_corr = 0.85 and top_n = 2, the filter selects A and exactly one of
B, C (B, via padding) while C is dropped with a reason referencing A. -/
theorem C9_correlation_filter :
    (∀ (corr : String → String → ℚ) (maxAbsCorr : ℚ) (topN : Nat) (ranked : List String),
       List.Pairwise (fun a b => |corr b a| ≤ maxAbsCorr)
         (greedyLoop corr maxAbsCorr topN ranked [] []).1)
    ∧ (∀ (corr : String → String → ℚ) (maxAbsCorr : ℚ) (topN : Nat)
         (ranked : List String) (returnsEmpty : Bool),
       (greedyCorrelationFilter ranked returnsEmpty corr maxAbsCorr topN).selected.length
         ≤ topN)
    ∧ IsPearsonCorr [0, 1, 2] [0, 1, 2] 1
    ∧ IsPearsonCorr [0, 1, 2] [0, -1, -2] (-1)
    ∧ (greedyCorrelationFilter ["A", "B", "C"] false corrABC (85/100) 2).selected = ["A", "B"]
    ∧ (greedyCorrelationFilter ["A", "B", "C"] false corrABC (85/100) 2).excluded.lookup "C"
        = some "|corr(C,A)|=1.00 > 0.85" := by
  have pB : (decide ((85/100:ℚ) < |corrABC "B" "A"|)) = true := by
    simp [corrABC]
    norm_num
  have pC : (decide ((85/100:ℚ) < |corrABC "C" "A"|)) = true := by
    simp [corrABC]
    norm_num
  have hfB : fmt2 |corrABC "B" "A"| = "1.00" := by
    rw [show |corrABC "B" "A"| = (1:ℚ) from by simp [corrABC]]
    unfold fmt2
    rw [show round (|(1:ℚ)| * 100) = (100:ℤ) from by norm_num [round_eq]]
    decide
  have hfC : fmt2 |corrABC "C" "A"| = "1.00" := by
    rw [show |corrABC "C" "A"| = (1:ℚ) from by simp [corrABC]]
    unfold fmt2
    rw [show round (|(1:ℚ)| * 100) = (100:ℤ) from by norm_num [round_eq]]
    decide
  have hf85 : fmt2 (85/100) = "0.85" := by
    unfold fmt2
    rw [show round (|(85/100:ℚ)| * 100) = (85:ℤ) from by
      rw [abs_of_nonneg (by norm_num : (0:ℚ) ≤ 85/100)]
      norm_num [round_eq]]
    rw [if_neg (by norm_num : ¬(85/100:ℚ) < 0)]
    decide
  have hrun : (greedyCorrelationFilter ["A", "B", "C"] false corrABC (85/100) 2)
      = ⟨["A", "B"], [("B", "|corr(B,A)|=1.00 > 0.85"), ("C", "|corr(C,A)|=1.00 > 0.85")]⟩ := by
    simp [greedyCorrelationFilter, greedyLoop, padLoop, pB, pC, hfB, hfC, hf85, List.find?]
  refine ⟨?_, ?_, ?_, ?_, ?_, ?_⟩
  · intro corr maxAbsCorr topN ranked
    exact greedyLoop_pairwise corr maxAbsCorr topN ranked [] [] List.Pairwise.nil
  · intro corr maxAbsCorr topN ranked returnsEmpty
    unfold greedyCorrelationFilter
    split
    · rw [List.length_take]
      exact min_le_left _ _
    · exact padLoop_length topN ranked _
        (greedyLoop_length corr maxAbsCorr topN ranked [] [] (by simp))
  · norm_num [IsPearsonCorr, varSum, covSum, qMean, listSum]
  · norm_num [IsPearsonCorr, varSum, covSum, qMean, listSum]
  · rw [hrun]
  · rw [hrun]
    simp [List.lookup]

end TradingBot
